import Mathlib

/-!
Verification of the deepMapKeys engine of the json-utils repository.

The embedding models JavaScript runtime values with explicit reference
identity: arrays and objects live in a heap of cells and are denoted by
references, so that the cycle guard of lib/node.ts (a process-wide set of
visited references) and the reference-identity facts of the specification
can be stated faithfully.  Recursion in the source runs on the call stack;
here it is bounded by an explicit fuel parameter, and exhausting the fuel
is reported as a distinguished error that stands for unbounded recursion.
-/

namespace JsonUtils

/-- A JavaScript runtime value as seen by the library: the undefined
sentinel, the four JSON scalar shapes, a reference to a heap cell holding
an array or a plain object, or some other non-JSON value (a Set, a Date,
a function, ...) identified only by a tag. -/
inductive JsVal where
  | undef
  | null
  | bool (b : Bool)
  | num (n : Int)
  | str (s : String)
  | ref (r : Nat)
  | other (tag : String)
deriving DecidableEq, Repr

/-- A heap cell: the contents of one array or one plain object.  Object
entries are listed in enumeration order, as Object.entries would yield
them. -/
inductive HeapCell where
  | arrCell (elems : List JsVal)
  | objCell (entries : List (String × JsVal))
deriving DecidableEq, Repr

/-- The heap: cell r is heap[r]?. -/
abbrev Heap := List HeapCell

/-- The cycle guard state: the insertion-ordered contents of the
process-wide Set of references in lib/node.ts. -/
abbrev Refs := List Nat

/-- Errors thrown by the library.  The source throws TypeError with a
message; outOfFuel is the model artifact standing for recursion that
exceeds the fuel bound (in the source: unbounded recursion on the call
stack). -/
inductive JsErr where
  | typeError (msg : String)
  | outOfFuel
deriving DecidableEq, Repr

/-- Source lib/json.ts isJsonScalar: number, string, boolean or null. -/
def isJsonScalar : JsVal → Bool
  | .null => true
  | .bool _ => true
  | .num _ => true
  | .str _ => true
  | _ => false

/-- Source lib/json.ts isJsonObject: the value is (a reference to) a plain
object, non-recursively. -/
def isJsonObject (heap : Heap) : JsVal → Bool
  | .ref r =>
    match heap[r]? with
    | some (.objCell _) => true
    | _ => false
  | _ => false

/-- Source lib/json.ts isJsonArray: the value satisfies the host array
predicate, non-recursively. -/
def isJsonArray (heap : Heap) : JsVal → Bool
  | .ref r =>
    match heap[r]? with
    | some (.arrCell _) => true
    | _ => false
  | _ => false

/-- Source lib/json.ts isJsonValue: not undefined, and scalar-, object- or
array-shaped. -/
def isJsonValue (heap : Heap) (v : JsVal) : Bool :=
  !(decide (v = JsVal.undef)) && (isJsonScalar v || isJsonObject heap v || isJsonArray heap v)

/-- A node key as in lib/node.ts: a string for object members and the root
sentinel, a (non-negative) integer index for array elements. -/
inductive Key where
  | str (s : String)
  | num (n : Nat)
deriving DecidableEq, Repr

/-- Coercion of a key to the string JavaScript uses when it indexes an
object with it (template interpolation / property assignment). -/
def keyToString : Key → String
  | .str s => s
  | .num n => toString n

/-- The character class matched by the regular expression whitespace class
in JavaScript (the class tested by lib/node.ts against key names). -/
def isJsSpace (c : Char) : Bool :=
  c = '\u0009' || c = '\u000A' || c = '\u000B' || c = '\u000C' || c = '\u000D' ||
  c = '\u0020' || c = '\u00A0' || c = '\u1680' ||
  ('\u2000' ≤ c && c ≤ '\u200A') ||
  c = '\u2028' || c = '\u2029' || c = '\u202F' || c = '\u205F' ||
  c = '\u3000' || c = '\uFEFF'

/-- Source lib/node.ts Node.#toJsonPathSegment: an integer index becomes
a bracketed index, a string containing whitespace or a dot becomes a
bracket-quoted segment (no escaping), any other string a dot-prefixed
segment. -/
def toJsonPathSegment : Key → String
  | .num n => "[" ++ toString n ++ "]"
  | .str s =>
    if s.any (fun c => isJsSpace c || c = '.') then "['" ++ s ++ "']"
    else "." ++ s

/-- Node classification, as in lib/node.ts. -/
inductive NodeKind where
  | scalar
  | array
  | object
deriving DecidableEq, Repr

/-- A constructed tree node (lib/node.ts class Node).  The parent pointer
of the source is not stored: it is consulted only while the constructor
runs (for the cached jsonpath segments, reproduced here) and for the
root test at the end of construction, which in the source is equivalent
to the test that the key is the root sentinel. -/
inductive Node where
  | mk (key : Key) (value : JsVal) (kind : NodeKind)
      (jsonpathSegs : List String) (children : Option (List Node))

def Node.key : Node → Key
  | .mk k _ _ _ _ => k

def Node.value : Node → JsVal
  | .mk _ v _ _ _ => v

def Node.kind : Node → NodeKind
  | .mk _ _ ki _ _ => ki

def Node.jsonpathSegs : Node → List String
  | .mk _ _ _ segs _ => segs

def Node.children : Node → Option (List Node)
  | .mk _ _ _ _ ch => ch

/-- Source lib/node.ts jsonpath getter: the cached segments joined. -/
def Node.jsonpath (n : Node) : String :=
  String.join n.jsonpathSegs

/-- Source lib/node.ts detectCircularReference: fail if the reference was
already recorded during this pass, otherwise record it. -/
def detectCircularReference (refs : Refs) (r : Nat) : Except JsErr Refs :=
  if r ∈ refs then .error (.typeError ("Converting circular structure"))
  else .ok (refs ++ [r])

/-- The value classification performed by the switch statement of the Node
constructor: the array predicate is consulted first, then the plain-object
predicate, and everything else falls to the default (scalar) branch. -/
inductive Shape where
  | arrayShaped (r : Nat) (elems : List JsVal)
  | objectShaped (r : Nat) (entries : List (String × JsVal))
  | scalarShaped
deriving Repr

/-- Classify a value against the heap the way the Node constructor does
with isJsonArray and isJsonObject. -/
def classify (heap : Heap) : JsVal → Shape
  | .ref r =>
    match heap[r]? with
    | some (.arrCell elems) => .arrayShaped r elems
    | some (.objCell entries) => .objectShaped r entries
    | none => .scalarShaped
  | _ => .scalarShaped

/-- The jsonpath segment list computed at the top of the Node constructor:
the root sentinel key yields the root marker alone (the parent, even when
present, is ignored), any other key requires a parent and appends its own
segment to the parent's cached segments. -/
def nodeJsonPathSegs (key : Key) (parent : Option (List String)) :
    Except JsErr (List String) :=
  if key = Key.str ("$") then .ok [keyToString key]
  else
    match parent with
    | none => .error (.typeError ("Parent node is required"))
    | some psegs => .ok (psegs ++ [toJsonPathSegment key])

mutual

/-- The Node constructor of lib/node.ts.  The parent argument carries the
parent's cached jsonpath segments (all the constructor reads from the
parent object).  The guard state threads through in Set insertion order;
on a thrown error the state at the moment of the throw is returned, and
the clearing of the guard at the end of the constructor body runs only
when construction of the node completed normally, exactly as in the
source, where no try/finally protects it. -/
def buildNode (heap : Heap) :
    Nat → Key → JsVal → Option (List String) → Refs → Except JsErr Node × Refs
  | 0, _, _, _, refs => (.error .outOfFuel, refs)
  | fuel + 1, key, value, parent, refs =>
    match nodeJsonPathSegs key parent with
    | .error e => (.error e, refs)
    | .ok segs =>
      match classify heap value with
      | .arrayShaped r elems =>
        match detectCircularReference refs r with
        | .error e => (.error e, refs)
        | .ok refs1 =>
          match buildNodes heap fuel
              (elems.enum.map (fun p => (Key.num p.1, p.2))) segs refs1 with
          | (.error e, refs2) => (.error e, refs2)
          | (.ok cs, refs2) =>
            (.ok (.mk key value .array segs (some cs)),
             if key = Key.str ("$") then [] else refs2)
      | .objectShaped r entries =>
        match detectCircularReference refs r with
        | .error e => (.error e, refs)
        | .ok refs1 =>
          match buildNodes heap fuel
              ((entries.filter (fun e => decide (¬ e.2 = JsVal.undef))).map
                (fun e => (Key.str e.1, e.2))) segs refs1 with
          | (.error e, refs2) => (.error e, refs2)
          | (.ok cs, refs2) =>
            (.ok (.mk key value .object segs (some cs)),
             if key = Key.str ("$") then [] else refs2)
      | .scalarShaped =>
        (.ok (.mk key value .scalar segs none),
         if key = Key.str ("$") then [] else refs)

/-- Sequential construction of the children of one container node, in
child order, threading the guard state; an error aborts the remaining
children, as a thrown exception does in the source. -/
def buildNodes (heap : Heap) :
    Nat → List (Key × JsVal) → List String → Refs → Except JsErr (List Node) × Refs
  | _, [], _, refs => (.ok [], refs)
  | fuel, kv :: rest, psegs, refs =>
    match buildNode heap fuel kv.1 kv.2 (some psegs) refs with
    | (.error e, refs1) => (.error e, refs1)
    | (.ok n, refs1) =>
      match buildNodes heap fuel rest psegs refs1 with
      | (.error e, refs2) => (.error e, refs2)
      | (.ok ns, refs2) => (.ok (n :: ns), refs2)

end

/-- The options record accepted by deepMapKeys (lib/visitor.ts
VisitorOptions): an optional list of patterns matched against jsonpath
texts, and an optional debug flag.  A RegExp consulted through its test
method is modelled as a predicate on strings. -/
structure VisitorOptions where
  skipList : Option (List (String → Bool))
  debug : Option Bool

/-- The Visitor of lib/visitor.ts: the key mutator, the skip list and the
debug flag (the flag only drives console logging, which has no effect on
any value the library returns, so it is carried but never consulted
here). -/
structure Visitor where
  onVisitObjectKey : Key → String
  skipList : List (String → Bool)
  isDebugEnabled : Bool

/-- The Visitor constructor: defaults the skip list to empty and the debug
flag to false. -/
def Visitor.new (onVisitJsonObjectKey : Key → String) (options : Option VisitorOptions) :
    Visitor :=
  ⟨onVisitJsonObjectKey,
   (options.bind (fun o => o.skipList)).getD [],
   (options.bind (fun o => o.debug)).getD false⟩

mutual

/-- Source lib/node.ts Node.accept: dispatch on the node kind.  The
scalar visit only logs; the array visit recurses into every child; the
object visit rewrites each child key (unless some skip pattern matches
the child's cached jsonpath) and then recurses into that child.  The
in-place key assignment of the source becomes rebuilding the node with
the new key. -/
def acceptNode (vis : Visitor) : Node → Node
  | .mk k v kind segs ch => .mk k v kind segs (visitChildren vis kind ch)

/-- The recursion into children performed by the visit methods, selected
by the kind of the node being visited. -/
def visitChildren (vis : Visitor) : NodeKind → Option (List Node) → Option (List Node)
  | .scalar, ch => ch
  | .array, none => none
  | .array, some cs => some (visitNodesArray vis cs)
  | .object, none => none
  | .object, some cs => some (visitNodesObject vis cs)

/-- Source Visitor.visitArray loop: visit each child in index order, keys
untouched. -/
def visitNodesArray (vis : Visitor) : List Node → List Node
  | [] => []
  | c :: cs => acceptNode vis c :: visitNodesArray vis cs

/-- Source Visitor.visitObject loop: for each child in child order, the
new key is the old one when some skip pattern matches the child's cached
jsonpath, otherwise the mutator applied to the old key; the key is
updated before the recursive visit of that child. -/
def visitNodesObject (vis : Visitor) : List Node → List Node
  | [] => []
  | c :: cs =>
    (match c with
     | .mk ck cv ckind csegs cch =>
       Node.mk
         (if vis.skipList.any (fun p => p (String.join csegs)) then ck
          else .str (vis.onVisitObjectKey ck))
         cv ckind csegs (visitChildren vis ckind cch))
      :: visitNodesObject vis cs

end

/-- Assignment of a value to a key of a JavaScript object: an existing
key keeps its position and receives the new value, a new key is appended
at the end. -/
def objInsert : List (String × JsVal) → String → JsVal → List (String × JsVal)
  | [], k, v => [(k, v)]
  | (k0, v0) :: rest, k, v =>
    if k0 = k then (k0, v) :: rest else (k0, v0) :: objInsert rest k v

mutual

/-- Source lib/node.ts Node.toJsonValue.  A scalar node returns its stored
value; an array node returns a reference to a freshly allocated array
cell holding the reconstruction of each child in index order; an object
node returns a reference to a freshly allocated object cell populated by
assigning each reconstructed child under its current key, in child order.
Fresh cells are appended to the heap, which threads through.  (For the
array kind the source asserts the children non-null; a node of array kind
always carries children, so the null case defaults to the empty list.) -/
def toJsonValue : Node → Heap → JsVal × Heap
  | .mk _ v kind _ ch, heap =>
    match kind, ch with
    | .scalar, _ => (v, heap)
    | .array, none => (.ref heap.length, heap ++ [.arrCell []])
    | .array, some cs =>
      match toJsonValueList cs heap with
      | (vs, heap1) => (.ref heap1.length, heap1 ++ [.arrCell vs])
    | .object, none => (.ref heap.length, heap ++ [.objCell []])
    | .object, some cs =>
      match toJsonObjEntries cs [] heap with
      | (entries, heap1) => (.ref heap1.length, heap1 ++ [.objCell entries])

/-- Reconstruction of a list of children in order, threading the heap. -/
def toJsonValueList : List Node → Heap → List JsVal × Heap
  | [], heap => ([], heap)
  | c :: cs, heap =>
    match toJsonValue c heap with
    | (v, heap1) =>
      match toJsonValueList cs heap1 with
      | (vs, heap2) => (v :: vs, heap2)

/-- The object reconstruction loop: assign each reconstructed child under
its current key, accumulating the entry list of the fresh object cell. -/
def toJsonObjEntries : List Node → List (String × JsVal) → Heap →
    List (String × JsVal) × Heap
  | [], acc, heap => (acc, heap)
  | c :: cs, acc, heap =>
    match toJsonValue c heap with
    | (v, heap1) => toJsonObjEntries cs (objInsert acc (keyToString c.key) v) heap1

end

/-- The count consulted by the deepMapKeys fast path for object-shaped
input: the number of keys of the object (keys whose value is undefined
included, as with Object.keys). -/
def objKeyCount (heap : Heap) : JsVal → Nat
  | .ref r =>
    match heap[r]? with
    | some (.objCell entries) => entries.length
    | _ => 0
  | _ => 0

/-- The length consulted by the deepMapKeys fast path for array-shaped
input. -/
def arrLength (heap : Heap) : JsVal → Nat
  | .ref r =>
    match heap[r]? with
    | some (.arrCell elems) => elems.length
    | _ => 0
  | _ => 0

/-- Source mod.ts deepMapKeys: reject non-JSON input; return empty
containers unchanged; otherwise build the tree rooted at the sentinel,
run the visitor over it and reconstruct.  The cycle guard state threads
in and out (it is process-wide in the source), and the heap is returned
alongside the result value so that freshness of the reconstruction is
observable. -/
def deepMapKeys (heap : Heap) (fuel : Nat) (input : JsVal)
    (onVisitJsonObjectKey : Key → String) (options : Option VisitorOptions)
    (refs : Refs) : Except JsErr (JsVal × Heap) × Refs :=
  if !(isJsonValue heap input) then
    (.error (.typeError ("Invalid argument type")), refs)
  else if (isJsonObject heap input && decide (objKeyCount heap input = 0)) ||
      (isJsonArray heap input && decide (arrLength heap input = 0)) then
    (.ok (input, heap), refs)
  else
    match buildNode heap fuel (.str ("$")) input none refs with
    | (.error e, refs1) => (.error e, refs1)
    | (.ok node, refs1) =>
      match toJsonValue (acceptNode (Visitor.new onVisitJsonObjectKey options) node) heap with
      | (v, heap1) => (.ok (v, heap1), refs1)

/-- Property lookup on an object cell's entry list. -/
def lookupEntries : List (String × JsVal) → String → Option JsVal
  | [], _ => none
  | (k0, v0) :: rest, k => if k0 = k then some v0 else lookupEntries rest k

/-- The value retained after a sequence of keyed writes when the later
write wins (writes listed in order; an entry later in the list shadows an
earlier one with the same key): the reference point for the collision
behaviour of object reconstruction. -/
def lastWins : List (String × JsVal) → String → Option JsVal
  | [], _ => none
  | p :: ps, k =>
    match lastWins ps k with
    | some v => some v
    | none => if p.1 = k then some p.2 else none

/-- A mutator that keeps every key unchanged (modulo the string coercion
JavaScript applies on assignment). -/
def idKey : Key → String := keyToString

/-- One-cell heap holding a self-referencing object, the canonical
circular input. -/
def heapSelfRef : Heap := [.objCell [(("prop"), .ref 0)]]

/-- Heap in which the same empty-object reference is reachable twice from
cell 0: once under a key spelled like the root sentinel and once under a
sibling key. -/
def heapSharedDollar : Heap := [.objCell [(("$"), .ref 1), (("b"), .ref 1)], .objCell []]

/-- Heap with a genuine reference cycle (cell 0 contains itself through
its second entry) in which cell 0 also reaches, through its first entry,
an object having a key spelled like the root sentinel. -/
def heapCycleDollar : Heap :=
  [.objCell [(("a"), .ref 1), (("b"), .ref 0)], .objCell [(("$"), .null)]]

/-- Heap for observing what a failed call leaves in the cycle guard:
cell 0 is cyclic but registers the innocent empty object cell 1 before
failing; cell 2 is an acyclic object that merely contains cell 1. -/
def heapGuardLeak : Heap :=
  [.objCell [(("a"), .ref 1), (("b"), .ref 0)], .objCell [],
   .objCell [(("d"), .ref 1)]]

/-! Basic facts about the embedding used throughout the development. -/

@[simp] theorem node_key_mk (k : Key) (v : JsVal) (ki : NodeKind)
    (segs : List String) (ch : Option (List Node)) :
    (Node.mk k v ki segs ch).key = k := rfl

@[simp] theorem node_value_mk (k : Key) (v : JsVal) (ki : NodeKind)
    (segs : List String) (ch : Option (List Node)) :
    (Node.mk k v ki segs ch).value = v := rfl

@[simp] theorem node_kind_mk (k : Key) (v : JsVal) (ki : NodeKind)
    (segs : List String) (ch : Option (List Node)) :
    (Node.mk k v ki segs ch).kind = ki := rfl

@[simp] theorem node_jsonpathSegs_mk (k : Key) (v : JsVal) (ki : NodeKind)
    (segs : List String) (ch : Option (List Node)) :
    (Node.mk k v ki segs ch).jsonpathSegs = segs := rfl

@[simp] theorem node_children_mk (k : Key) (v : JsVal) (ki : NodeKind)
    (segs : List String) (ch : Option (List Node)) :
    (Node.mk k v ki segs ch).children = ch := rfl

theorem string_join_append (l1 l2 : List String) :
    String.join (l1 ++ l2) = String.join l1 ++ String.join l2 := by
  simp [String.join_eq, String.ext_iff]

/-- Successful construction yields a node carrying the requested key and
value, whose cached segments are the ones computed at the head of the
constructor. -/
theorem buildNode_ok_shape (heap : Heap) (fuel : Nat) (key : Key) (value : JsVal)
    (parent : Option (List String)) (refs : Refs) (n : Node) (refs1 : Refs)
    (h : buildNode heap fuel key value parent refs = (.ok n, refs1)) :
    ∃ segs kind ch, nodeJsonPathSegs key parent = .ok segs ∧
      n = .mk key value kind segs ch := by
  cases fuel with
  | zero => simp [buildNode] at h
  | succ fuel =>
    unfold buildNode at h
    split at h
    · simp_all
    · rename_i segs hsegs
      split at h
      · split at h
        · simp_all
        · split at h
          · simp_all
          · rename_i cs refs2 hbn
            simp only [Prod.mk.injEq, Except.ok.injEq] at h
            exact ⟨segs, .array, some cs, hsegs, h.1.symm⟩
      · split at h
        · simp_all
        · split at h
          · simp_all
          · rename_i cs refs2 hbn
            simp only [Prod.mk.injEq, Except.ok.injEq] at h
            exact ⟨segs, .object, some cs, hsegs, h.1.symm⟩
      · simp only [Prod.mk.injEq, Except.ok.injEq] at h
        exact ⟨segs, .scalar, none, hsegs, h.1.symm⟩

/-- The branch condition of the path formatter restated over the string's
character list, so that concrete instances evaluate in the kernel. -/
theorem toJsonPathSegment_str (s : String) :
    toJsonPathSegment (.str s) =
      if s.data.any (fun c => isJsSpace c || c = '.') then "['" ++ s ++ "']"
      else "." ++ s := by
  simp only [toJsonPathSegment, String.any_eq]

/-! Claim theorems. -/

/-- C5: the Path Formatter maps an integer index to the bracketed index
with no separator prefix, a string containing whitespace or a dot to the
bracket-quoted unescaped form, and any other string to the dot-prefixed
bare form; in particular the three example keys of the claim format as
stated. -/
theorem c5_path_formatter :
    (∀ i : Nat, toJsonPathSegment (.num i) = "[" ++ toString i ++ "]")
    ∧ (∀ s : String, (∃ c ∈ s.data, isJsSpace c = true ∨ c = '.') →
        toJsonPathSegment (.str s) = "['" ++ s ++ "']")
    ∧ (∀ s : String, (∀ c ∈ s.data, isJsSpace c = false ∧ ¬ c = '.') →
        toJsonPathSegment (.str s) = "." ++ s)
    ∧ toJsonPathSegment (.str ("2024-07-30T05:13:15.416Z")) = "['2024-07-30T05:13:15.416Z']"
    ∧ toJsonPathSegment (.str ("foo")) = ".foo"
    ∧ toJsonPathSegment (.num 0) = "[0]" := by
  refine ⟨fun i => rfl, fun s hs => ?_, fun s hs => ?_,
    by rw [toJsonPathSegment_str]; decide, by rw [toJsonPathSegment_str]; decide, rfl⟩
  · have hcond : s.data.any (fun c => isJsSpace c || c = '.') = true := by
      rw [List.any_eq_true]
      obtain ⟨c, hc, hor⟩ := hs
      exact ⟨c, hc, by rcases hor with h | h <;> simp [h]⟩
    rw [toJsonPathSegment_str, if_pos hcond]
  · have hcond : s.data.any (fun c => isJsSpace c || c = '.') = false := by
      rw [List.any_eq_false]
      intro c hc
      have := hs c hc
      simp [this.1, this.2]
    rw [toJsonPathSegment_str, hcond]
    rfl

theorem c5_path_formatter_witness :
    toJsonPathSegment (.str ("a b")) = "['a b']" ∧ toJsonPathSegment (.str ("ab")) = ".ab" :=
  ⟨c5_path_formatter.2.1 ("a b") ⟨' ', by decide, by decide⟩,
   c5_path_formatter.2.2.1 ("ab") (by decide)⟩

/-- C4: a node whose key is the root sentinel has path exactly the root
marker; for any other key, construction without a parent fails with the
parent-required TypeError, and construction with a parent yields a node
whose path is the parent's path followed by the formatter's segment for
the key. -/
theorem c4_node_path_derivation (heap : Heap) (fuel : Nat) (key : Key) (value : JsVal)
    (refs : Refs) :
    (∀ parent n refs1, key = .str ("$") →
      buildNode heap fuel key value parent refs = (.ok n, refs1) →
      n.jsonpath = "$")
    ∧ (¬ key = .str ("$") →
      buildNode heap (fuel + 1) key value none refs =
        (.error (.typeError ("Parent node is required")), refs))
    ∧ (∀ psegs n refs1, ¬ key = .str ("$") →
      buildNode heap fuel key value (some psegs) refs = (.ok n, refs1) →
      n.jsonpath = String.join psegs ++ toJsonPathSegment key) := by
  refine ⟨fun parent n refs1 hk h => ?_, fun hk => ?_, fun psegs n refs1 hk h => ?_⟩
  · obtain ⟨segs, kind, ch, hsegs, hn⟩ := buildNode_ok_shape _ _ _ _ _ _ _ _ h
    subst hk
    simp [nodeJsonPathSegs, keyToString] at hsegs
    subst hn
    simp [Node.jsonpath, ← hsegs, String.join]
  · unfold buildNode
    simp [nodeJsonPathSegs, hk]
  · obtain ⟨segs, kind, ch, hsegs, hn⟩ := buildNode_ok_shape _ _ _ _ _ _ _ _ h
    simp [nodeJsonPathSegs, hk] at hsegs
    subst hn
    simp [Node.jsonpath, ← hsegs, string_join_append, String.join]

theorem c4_node_path_derivation_witness :
    (Node.mk (Key.str ("$")) .null .scalar ["$"] none).jsonpath = "$"
    ∧ buildNode [] 1 (.str ("a")) .null none [] =
        (.error (.typeError ("Parent node is required")), [])
    ∧ (Node.mk (Key.str ("a")) .null .scalar ["$", ".a"] none).jsonpath =
        String.join ["$"] ++ toJsonPathSegment (.str ("a")) := by
  have e1 : buildNode [] 1 (.str ("$")) .null none [] =
      (.ok (.mk (.str ("$")) .null .scalar ["$"] none), []) := by
    simp [buildNode, nodeJsonPathSegs, classify, keyToString]
  have e3 : buildNode [] 1 (.str ("a")) .null (some ["$"]) [] =
      (.ok (.mk (.str ("a")) .null .scalar ["$", ".a"] none), []) := by
    simp [buildNode, nodeJsonPathSegs, classify, toJsonPathSegment_str, isJsSpace]
  refine ⟨(c4_node_path_derivation [] 1 (.str ("$")) .null []).1 none _ _ rfl e1,
    (c4_node_path_derivation [] 0 (.str ("a")) .null []).2.1 (by decide),
    (c4_node_path_derivation [] 1 (.str ("a")) .null []).2.2 ["$"] _ _ (by decide) e3⟩

/-- C9: deepMapKeys is the identity on scalars (the very value passed in
comes back, whatever the mutator), and on the empty object and the empty
array it returns the same reference with the heap untouched and without
building any tree (the guard state is not even consulted). -/
theorem c9_identity_fast_paths (heap : Heap) (fuel : Nat) (v : JsVal)
    (f : Key → String) (options : Option VisitorOptions) (refs : Refs) :
    (isJsonScalar v = true →
      deepMapKeys heap (fuel + 1) v f options refs = (.ok (v, heap), []))
    ∧ (∀ r, heap[r]? = some (.objCell []) →
      deepMapKeys heap fuel (.ref r) f options refs = (.ok (.ref r, heap), refs))
    ∧ (∀ r, heap[r]? = some (.arrCell []) →
      deepMapKeys heap fuel (.ref r) f options refs = (.ok (.ref r, heap), refs)) := by
  refine ⟨fun hv => ?_, fun r hr => ?_, fun r hr => ?_⟩
  · cases v <;>
      first
        | (simp [isJsonScalar] at hv; done)
        | simp [deepMapKeys, isJsonValue, isJsonScalar, isJsonObject, isJsonArray,
            buildNode, nodeJsonPathSegs, classify, acceptNode, visitChildren, toJsonValue]
  · simp [deepMapKeys, isJsonValue, isJsonScalar, isJsonObject, isJsonArray,
      objKeyCount, hr]
  · simp [deepMapKeys, isJsonValue, isJsonScalar, isJsonObject, isJsonArray,
      arrLength, hr]

theorem c9_identity_fast_paths_witness :
    deepMapKeys [] 1 (.num 42) idKey none [3] = (.ok (.num 42, []), [])
    ∧ deepMapKeys [.objCell []] 1 (.ref 0) idKey none [7] =
        (.ok (.ref 0, [.objCell []]), [7])
    ∧ deepMapKeys [.arrCell []] 1 (.ref 0) idKey none [7] =
        (.ok (.ref 0, [.arrCell []]), [7]) :=
  ⟨(c9_identity_fast_paths [] 0 (.num 42) idKey none [3]).1 rfl,
   (c9_identity_fast_paths [.objCell []] 1 (.num 0) idKey none [7]).2.1 0 rfl,
   (c9_identity_fast_paths [.arrCell []] 1 (.num 0) idKey none [7]).2.2 0 rfl⟩

/-! Lemmas about reconstruction, for the claims on toJsonValue. -/

theorem toJsonValueList_length (cs : List Node) (heap : Heap) :
    (toJsonValueList cs heap).fst.length = cs.length := by
  induction cs generalizing heap with
  | nil => simp [toJsonValueList]
  | cons c cs ih =>
    rcases htv : toJsonValue c heap with ⟨v, heap1⟩
    simp [toJsonValueList, htv, ih]

theorem lookupEntries_objInsert (a : List (String × JsVal)) (k k1 : String) (v : JsVal) :
    lookupEntries (objInsert a k v) k1 =
      if k = k1 then some v else lookupEntries a k1 := by
  induction a with
  | nil => simp [objInsert, lookupEntries]
  | cons p rest ih =>
    rcases p with ⟨k0, v0⟩
    by_cases h0 : k0 = k
    · subst h0
      simp only [objInsert, if_pos rfl, lookupEntries]
      by_cases h1 : k0 = k1 <;> simp [h1]
    · have h0' : ¬ k = k0 := fun h => h0 h.symm
      simp only [objInsert, if_neg h0, lookupEntries, ih]
      by_cases h1 : k0 = k1
      · subst h1
        simp [if_neg h0']
      · simp [h1]

theorem lookupEntries_foldl_objInsert (ps : List (String × JsVal))
    (acc : List (String × JsVal)) (k : String) :
    lookupEntries (ps.foldl (fun a p => objInsert a p.1 p.2) acc) k =
      Option.elim (lastWins ps k) (lookupEntries acc k) some := by
  induction ps generalizing acc with
  | nil => simp [lastWins]
  | cons p ps ih =>
    simp only [List.foldl_cons]
    rw [ih, lookupEntries_objInsert]
    simp only [lastWins]
    cases lastWins ps k with
    | some w => simp
    | none => by_cases hp : p.1 = k <;> simp [hp]

theorem toJsonObjEntries_foldl (cs : List Node) (acc : List (String × JsVal))
    (heap : Heap) :
    toJsonObjEntries cs acc heap =
      (((cs.map (fun c => keyToString c.key)).zip (toJsonValueList cs heap).fst).foldl
          (fun a p => objInsert a p.1 p.2) acc,
        (toJsonValueList cs heap).snd) := by
  induction cs generalizing acc heap with
  | nil => simp [toJsonObjEntries, toJsonValueList]
  | cons c cs ih =>
    rcases htv : toJsonValue c heap with ⟨v, heap1⟩
    simp [toJsonObjEntries, toJsonValueList, htv, ih]

/-- C8: reconstruction returns the stored value for scalar nodes; for
array nodes a reference to a fresh cell holding one reconstructed child
per child, in index order; for object nodes a reference to a fresh cell
whose entries assign each reconstructed child under its current key in
child order, the later child winning when two current keys coincide. -/
theorem c8_reconstruction (k : Key) (v : JsVal) (segs : List String)
    (ch : Option (List Node)) (cs : List Node) (heap : Heap) (key : String) :
    toJsonValue (.mk k v .scalar segs ch) heap = (v, heap)
    ∧ (toJsonValue (.mk k v .array segs (some cs)) heap =
        (.ref (toJsonValueList cs heap).snd.length,
          (toJsonValueList cs heap).snd ++ [.arrCell (toJsonValueList cs heap).fst])
      ∧ (toJsonValueList cs heap).fst.length = cs.length)
    ∧ (toJsonValue (.mk k v .object segs (some cs)) heap =
        (.ref (toJsonObjEntries cs [] heap).snd.length,
          (toJsonObjEntries cs [] heap).snd ++ [.objCell (toJsonObjEntries cs [] heap).fst])
      ∧ lookupEntries (toJsonObjEntries cs [] heap).fst key =
          lastWins ((cs.map (fun c => keyToString c.key)).zip (toJsonValueList cs heap).fst)
            key) := by
  refine ⟨rfl, ⟨?_, toJsonValueList_length cs heap⟩, ⟨?_, ?_⟩⟩
  · rcases htv : toJsonValueList cs heap with ⟨vs, heap1⟩
    simp [toJsonValue, htv]
  · rcases hte : toJsonObjEntries cs [] heap with ⟨entries, heap1⟩
    simp [toJsonValue, hte]
  · rw [toJsonObjEntries_foldl, lookupEntries_foldl_objInsert]
    simp [lookupEntries]
    cases lastWins ((cs.map (fun c => keyToString c.key)).zip (toJsonValueList cs heap).fst)
        key <;> simp

/-- Successful child-list construction yields exactly one node per
requested child, in order, carrying the requested keys and values. -/
theorem buildNodes_ok_keys (heap : Heap) (fuel : Nat) (l : List (Key × JsVal))
    (psegs : List String) :
    ∀ refs ns refs1, buildNodes heap fuel l psegs refs = (.ok ns, refs1) →
      ns.map Node.key = l.map Prod.fst ∧ ns.map Node.value = l.map Prod.snd := by
  induction l with
  | nil =>
    intro refs ns refs1 h
    simp only [buildNodes, Prod.mk.injEq, Except.ok.injEq] at h
    simp [← h.1]
  | cons kv rest ih =>
    intro refs ns refs1 h
    unfold buildNodes at h
    split at h
    · simp_all
    · rename_i n refs2 hbn
      split at h
      · simp_all
      · rename_i ns2 refs3 hbns
        simp only [Prod.mk.injEq, Except.ok.injEq] at h
        obtain ⟨segs, kind, ch, _, hn⟩ := buildNode_ok_shape _ _ _ _ _ _ _ _ hbn
        obtain ⟨hk, hv⟩ := ih _ _ _ hbns
        subst hn
        simp [← h.1, hk, hv]

/-- A key under which no child of an object node ends up never enters the
entry list built by object reconstruction. -/
theorem toJsonObjEntries_lookup_not_mem (cs : List Node) (k0 : String) :
    ∀ acc heap0, (∀ c ∈ cs, ¬ keyToString c.key = k0) →
      lookupEntries (toJsonObjEntries cs acc heap0).fst k0 = lookupEntries acc k0 := by
  induction cs with
  | nil => intro acc heap0 _; simp [toJsonObjEntries]
  | cons c cs ih =>
    intro acc heap0 h
    rcases htv : toJsonValue c heap0 with ⟨v, heap1⟩
    simp only [toJsonObjEntries, htv]
    rw [ih _ _ (fun c hc => h c (List.mem_cons_of_mem _ hc)), lookupEntries_objInsert,
      if_neg (h c (List.mem_cons_self _ _))]

/-- C7: object entries whose value is the undefined sentinel produce no
child node, while each present entry produces exactly one child in
enumeration order keyed by the entry key; and reconstruction draws its
keys only from the children, so a dropped key under which no child ends
up is entirely absent from the reconstructed object. -/
theorem c7_undefined_entries_dropped (heap : Heap) (fuel : Nat) (key : Key)
    (r : Nat) (entries : List (String × JsVal)) (parent : Option (List String))
    (refs refs1 : Refs) (n : Node)
    (hcell : heap[r]? = some (.objCell entries))
    (hok : buildNode heap fuel key (.ref r) parent refs = (.ok n, refs1)) :
    (∃ cs, n.children = some cs
      ∧ cs.map Node.key =
          (entries.filter (fun e => decide (¬ e.2 = JsVal.undef))).map (fun e => Key.str e.1)
      ∧ cs.map Node.value =
          (entries.filter (fun e => decide (¬ e.2 = JsVal.undef))).map Prod.snd)
    ∧ (∀ (cs : List Node) (k0 : String) (heap0 : Heap),
        (∀ c ∈ cs, ¬ keyToString c.key = k0) →
        lookupEntries (toJsonObjEntries cs [] heap0).fst k0 = none) := by
  constructor
  · cases fuel with
    | zero => simp [buildNode] at hok
    | succ fuel =>
      have hcl : classify heap (.ref r) = .objectShaped r entries := by
        simp [classify, hcell]
      unfold buildNode at hok
      split at hok
      · simp_all
      · rename_i segs hsegs
        split at hok
        · rename_i r2 elems heq
          rw [hcl] at heq
          simp at heq
        · rename_i r2 entries2 heq
          rw [hcl] at heq
          obtain ⟨hr2, hent⟩ : r = r2 ∧ entries = entries2 := by
            cases heq
            exact ⟨rfl, rfl⟩
          subst hr2
          subst hent
          split at hok
          · simp_all
          · rename_i refs2 hdet
            split at hok
            · simp_all
            · rename_i cs refs3 hbns
              simp only [Prod.mk.injEq, Except.ok.injEq] at hok
              obtain ⟨hk, hv⟩ := buildNodes_ok_keys _ _ _ _ _ _ _ hbns
              refine ⟨cs, by simp [← hok.1], ?_, ?_⟩
              · rw [hk]
                simp [List.map_map, Function.comp]
              · rw [hv]
                simp [List.map_map, Function.comp]
        · rename_i heq
          rw [hcl] at heq
          simp at heq
  · intro cs k0 heap0 h
    have := toJsonObjEntries_lookup_not_mem cs k0 [] heap0 h
    simpa [lookupEntries] using this

theorem c7_undefined_entries_dropped_witness :
    (∃ cs,
      (Node.mk (Key.str ("$")) (.ref 0) .object ["$"]
          (some [.mk (.str ("b")) .null .scalar ["$", ".b"] none])).children = some cs
      ∧ cs.map Node.key =
          (([(("a"), JsVal.undef), (("b"), JsVal.null)].filter
              (fun e => decide (¬ e.2 = JsVal.undef))).map (fun e => Key.str e.1))
      ∧ cs.map Node.value =
          ([(("a"), JsVal.undef), (("b"), JsVal.null)].filter
              (fun e => decide (¬ e.2 = JsVal.undef))).map Prod.snd)
    ∧ lookupEntries
        (toJsonObjEntries [Node.mk (.str ("b")) .null .scalar ["$", ".b"] none] [] []).fst
        ("a") = none := by
  have hcell : ([.objCell [(("a"), JsVal.undef), (("b"), JsVal.null)]] : Heap)[0]? =
      some (.objCell [(("a"), JsVal.undef), (("b"), JsVal.null)]) := rfl
  have hok : buildNode [.objCell [(("a"), JsVal.undef), (("b"), JsVal.null)]] 2
      (.str ("$")) (.ref 0) none [] =
      (.ok (Node.mk (Key.str ("$")) (.ref 0) .object ["$"]
        (some [.mk (.str ("b")) .null .scalar ["$", ".b"] none])), []) := by
    simp [buildNode, buildNodes, nodeJsonPathSegs, classify, detectCircularReference,
      keyToString, toJsonPathSegment_str, isJsSpace]
  have h := c7_undefined_entries_dropped _ 2 (.str ("$")) 0 _ none [] [] _ hcell hok
  exact ⟨h.1, h.2 _ ("a") [] (by simp [keyToString])⟩

/-- The object-visit loop rewrites each child in order: the new key is
the old one when some skip pattern matches the child's cached jsonpath,
otherwise the mutator applied to the old key, and the subtree below the
child is visited with the child's value, kind and cached path segments
untouched. -/
theorem visitNodesObject_map (vis : Visitor) (cs : List Node) :
    visitNodesObject vis cs = cs.map (fun c =>
      Node.mk
        (if vis.skipList.any (fun p => p c.jsonpath) then c.key
         else .str (vis.onVisitObjectKey c.key))
        c.value c.kind c.jsonpathSegs (visitChildren vis c.kind c.children)) := by
  induction cs with
  | nil => rfl
  | cons c cs ih =>
    cases c with
    | mk ck cv ckind csegs cch =>
      simp [visitNodesObject, ih, Node.jsonpath]

/-- C3: for an object node, the visitor rewrites each child's key before
recursing into it, the decision to skip being taken by matching the skip
patterns against the child's cached (construction-time) jsonpath; the
visit changes no cached path segment (nor key, value or kind) of the node
it dispatches on, so matching never sees a path recomputed from mutated
keys. -/
theorem c3_visitor_mutation_uses_cached_paths (vis : Visitor) (n : Node) (cs : List Node)
    (hkind : n.kind = .object) (hch : n.children = some cs) :
    (acceptNode vis n).children = some (cs.map (fun c =>
        Node.mk
          (if vis.skipList.any (fun p => p c.jsonpath) then c.key
           else .str (vis.onVisitObjectKey c.key))
          c.value c.kind c.jsonpathSegs (visitChildren vis c.kind c.children)))
    ∧ (∀ m : Node, (acceptNode vis m).jsonpathSegs = m.jsonpathSegs
        ∧ (acceptNode vis m).key = m.key ∧ (acceptNode vis m).value = m.value
        ∧ (acceptNode vis m).kind = m.kind) := by
  constructor
  · cases n with
    | mk k v kind segs ch =>
      simp only [node_kind_mk] at hkind
      simp only [node_children_mk] at hch
      subst hkind
      subst hch
      simp [acceptNode, visitChildren, visitNodesObject_map]
  · intro m
    cases m with
    | mk k v kind segs ch => simp [acceptNode]

theorem c3_visitor_mutation_uses_cached_paths_witness :
    (acceptNode ⟨fun k => keyToString k ++ ("X"), [fun s => decide (s = ("$.skip"))], false⟩
        (Node.mk (.str ("$")) (.ref 0) .object ["$"]
          (some [Node.mk (.str ("skip")) .null .scalar ["$", ".skip"] none,
                 Node.mk (.str ("b")) .null .scalar ["$", ".b"] none]))).children =
      some [Node.mk (.str ("skip")) .null .scalar ["$", ".skip"] none,
            Node.mk (.str ("bX")) .null .scalar ["$", ".b"] none] := by
  have h := (c3_visitor_mutation_uses_cached_paths
    ⟨fun k => keyToString k ++ ("X"), [fun s => decide (s = ("$.skip"))], false⟩
    (Node.mk (.str ("$")) (.ref 0) .object ["$"]
      (some [Node.mk (.str ("skip")) .null .scalar ["$", ".skip"] none,
             Node.mk (.str ("b")) .null .scalar ["$", ".b"] none]))
    [Node.mk (.str ("skip")) .null .scalar ["$", ".skip"] none,
     Node.mk (.str ("b")) .null .scalar ["$", ".b"] none] rfl rfl).1
  rw [h]
  simp [Node.jsonpath, visitChildren, keyToString, String.join]

/-- The only way the path computation at the head of the constructor can
fail is the parent-required TypeError, and only for a non-sentinel key
with no parent. -/
theorem nodeJsonPathSegs_error (key : Key) (parent : Option (List String)) (e : JsErr)
    (h : nodeJsonPathSegs key parent = .error e) :
    e = .typeError ("Parent node is required") ∧ parent = none ∧ ¬ key = .str ("$") := by
  cases parent with
  | none =>
    unfold nodeJsonPathSegs at h
    split at h
    · simp at h
    · rename_i hk
      simp only [Except.error.injEq] at h
      exact ⟨h.symm, rfl, hk⟩
  | some psegs =>
    unfold nodeJsonPathSegs at h
    split at h <;> simp at h

/-- The cycle guard fails only with the circular-structure TypeError, and
only on a reference already recorded. -/
theorem detectCircularReference_error (refs : Refs) (r : Nat) (e : JsErr)
    (h : detectCircularReference refs r = .error e) :
    e = .typeError ("Converting circular structure") ∧ r ∈ refs := by
  unfold detectCircularReference at h
  split at h
  · rename_i hmem
    simp only [Except.error.injEq] at h
    exact ⟨h.symm, hmem⟩
  · simp at h

/-- Classification of every error construction can produce: fuel
exhaustion (the model's stand-in for unbounded recursion), the
circular-structure TypeError, or the parent-required TypeError, the last
only when no parent was supplied for a non-sentinel key. -/
theorem buildNode_error_msgs (heap : Heap) :
    ∀ (fuel : Nat) (key : Key) (value : JsVal) (parent : Option (List String))
      (refs : Refs) (e : JsErr) (refs1 : Refs),
      buildNode heap fuel key value parent refs = (.error e, refs1) →
      e = .outOfFuel ∨ e = .typeError ("Converting circular structure")
        ∨ (e = .typeError ("Parent node is required") ∧ parent = none
            ∧ ¬ key = .str ("$")) := by
  intro fuel
  induction fuel with
  | zero =>
    intro key value parent refs e refs1 h
    simp only [buildNode, Prod.mk.injEq, Except.error.injEq] at h
    exact .inl h.1.symm
  | succ fuel ih =>
    have ihs : ∀ (l : List (Key × JsVal)) (psegs : List String) (refs : Refs)
        (e : JsErr) (refs1 : Refs),
        buildNodes heap fuel l psegs refs = (.error e, refs1) →
        e = .outOfFuel ∨ e = .typeError ("Converting circular structure") := by
      intro l
      induction l with
      | nil =>
        intro psegs refs e refs1 h
        simp [buildNodes] at h
      | cons kv rest ihl =>
        intro psegs refs e refs1 h
        unfold buildNodes at h
        split at h
        · rename_i e2 refs2 heq
          simp only [Prod.mk.injEq, Except.error.injEq] at h
          rcases ih _ _ _ _ _ _ heq with h1 | h1 | h1
          · exact .inl (h.1 ▸ h1)
          · exact .inr (h.1 ▸ h1)
          · simp at h1
        · rename_i n refs2 heq
          split at h
          · rename_i e2 refs3 heq2
            simp only [Prod.mk.injEq, Except.error.injEq] at h
            rcases ihl _ _ _ _ heq2 with h1 | h1
            · exact .inl (h.1 ▸ h1)
            · exact .inr (h.1 ▸ h1)
          · simp at h
    intro key value parent refs e refs1 h
    unfold buildNode at h
    split at h
    · rename_i e1 hsegs
      simp only [Prod.mk.injEq, Except.error.injEq] at h
      exact .inr (.inr (h.1 ▸ nodeJsonPathSegs_error _ _ _ hsegs))
    · rename_i segs hsegs
      split at h
      · rename_i r elems heq
        split at h
        · rename_i e1 hdet
          simp only [Prod.mk.injEq, Except.error.injEq] at h
          exact .inr (.inl (h.1 ▸ (detectCircularReference_error _ _ _ hdet).1))
        · rename_i refs2 hdet
          split at h
          · rename_i e1 refs3 heq2
            simp only [Prod.mk.injEq, Except.error.injEq] at h
            rcases ihs _ _ _ _ _ heq2 with h1 | h1
            · exact .inl (h.1 ▸ h1)
            · exact .inr (.inl (h.1 ▸ h1))
          · simp at h
      · rename_i r entries heq
        split at h
        · rename_i e1 hdet
          simp only [Prod.mk.injEq, Except.error.injEq] at h
          exact .inr (.inl (h.1 ▸ (detectCircularReference_error _ _ _ hdet).1))
        · rename_i refs2 hdet
          split at h
          · rename_i e1 refs3 heq2
            simp only [Prod.mk.injEq, Except.error.injEq] at h
            rcases ihs _ _ _ _ _ heq2 with h1 | h1
            · exact .inl (h.1 ▸ h1)
            · exact .inr (.inl (h.1 ▸ h1))
          · simp at h
      · simp at h

/-- C6: deepMapKeys reports the invalid-argument TypeError exactly on
inputs that are not JSON values, and in that case it reports it with the
guard state untouched (nothing was constructed) and with a result that
does not depend on the mutation function (which was never called). -/
theorem c6_invalid_argument_iff (heap : Heap) (fuel : Nat) (input : JsVal)
    (f g : Key → String) (options : Option VisitorOptions) (refs : Refs) :
    ((deepMapKeys heap fuel input f options refs).fst =
        .error (.typeError ("Invalid argument type")) ↔ isJsonValue heap input = false)
    ∧ (isJsonValue heap input = false →
        deepMapKeys heap fuel input f options refs =
          (.error (.typeError ("Invalid argument type")), refs)
        ∧ deepMapKeys heap fuel input f options refs =
            deepMapKeys heap fuel input g options refs) := by
  by_cases hval : isJsonValue heap input = true
  · refine ⟨⟨fun habs => ?_, fun hfalse => by simp [hval] at hfalse⟩,
      fun hfalse => by simp [hval] at hfalse⟩
    unfold deepMapKeys at habs
    rw [hval] at habs
    simp only [Bool.not_true, Bool.false_eq_true, if_false] at habs
    split at habs
    · simp at habs
    · split at habs
      · rename_i e refs2 heq
        simp only at habs
        rcases buildNode_error_msgs heap fuel _ _ _ _ _ _ heq with h1 | h1 | h1
        · rw [h1] at habs
          exact absurd habs (by simp)
        · rw [h1] at habs
          simp only [Except.error.injEq, JsErr.typeError.injEq] at habs
          exact absurd habs (by decide)
        · exact absurd rfl h1.2.2
      · simp at habs
  · have hv : isJsonValue heap input = false := by
      cases hb : isJsonValue heap input
      · rfl
      · exact absurd hb hval
    simp [deepMapKeys, hv]

theorem c6_invalid_argument_iff_witness :
    ((deepMapKeys [] 3 .undef idKey none [5]).fst =
        .error (.typeError ("Invalid argument type")) ↔ isJsonValue [] .undef = false)
    ∧ (deepMapKeys [] 3 .undef idKey none [5] =
        (.error (.typeError ("Invalid argument type")), [5])
      ∧ deepMapKeys [] 3 .undef idKey none [5] =
          deepMapKeys [] 3 .undef (fun _ => ("z")) none [5]) :=
  ⟨(c6_invalid_argument_iff [] 3 .undef idKey (fun _ => ("z")) none [5]).1,
   (c6_invalid_argument_iff [] 3 .undef idKey (fun _ => ("z")) none [5]).2 rfl⟩

mutual

/-- Reconstruction only allocates: the heap it returns is the heap it was
given with fresh cells appended. -/
theorem toJsonValue_heap_extends (n : Node) (heap : Heap) :
    ∃ ext, (toJsonValue n heap).snd = heap ++ ext := by
  cases n with
  | mk k v kind segs ch =>
    cases kind with
    | scalar => exact ⟨[], by simp [toJsonValue]⟩
    | array =>
      cases ch with
      | none => exact ⟨[.arrCell []], by simp [toJsonValue]⟩
      | some cs =>
        obtain ⟨ext, hext⟩ := toJsonValueList_heap_extends cs heap
        rcases htv : toJsonValueList cs heap with ⟨vs, heap1⟩
        rw [htv] at hext
        exact ⟨ext ++ [.arrCell vs], by simp [toJsonValue, htv]; simp at hext; simp [hext]⟩
    | object =>
      cases ch with
      | none => exact ⟨[.objCell []], by simp [toJsonValue]⟩
      | some cs =>
        obtain ⟨ext, hext⟩ := toJsonObjEntries_heap_extends cs [] heap
        rcases hte : toJsonObjEntries cs [] heap with ⟨entries, heap1⟩
        rw [hte] at hext
        exact ⟨ext ++ [.objCell entries], by simp [toJsonValue, hte]; simp at hext; simp [hext]⟩

theorem toJsonValueList_heap_extends (cs : List Node) (heap : Heap) :
    ∃ ext, (toJsonValueList cs heap).snd = heap ++ ext := by
  cases cs with
  | nil => exact ⟨[], by simp [toJsonValueList]⟩
  | cons c cs =>
    obtain ⟨ext1, h1⟩ := toJsonValue_heap_extends c heap
    rcases htv : toJsonValue c heap with ⟨v, heap1⟩
    rw [htv] at h1
    obtain ⟨ext2, h2⟩ := toJsonValueList_heap_extends cs heap1
    rcases htl : toJsonValueList cs heap1 with ⟨vs, heap2⟩
    rw [htl] at h2
    refine ⟨ext1 ++ ext2, ?_⟩
    simp only [toJsonValueList, htv, htl]
    simp at h1 h2
    simp [h2, h1]

theorem toJsonObjEntries_heap_extends (cs : List Node) (acc : List (String × JsVal))
    (heap : Heap) :
    ∃ ext, (toJsonObjEntries cs acc heap).snd = heap ++ ext := by
  cases cs with
  | nil => exact ⟨[], by simp [toJsonObjEntries]⟩
  | cons c cs =>
    obtain ⟨ext1, h1⟩ := toJsonValue_heap_extends c heap
    rcases htv : toJsonValue c heap with ⟨v, heap1⟩
    rw [htv] at h1
    obtain ⟨ext2, h2⟩ := toJsonObjEntries_heap_extends cs (objInsert acc (keyToString c.key) v) heap1
    subst h1
    refine ⟨ext1 ++ ext2, ?_⟩
    simp only [toJsonObjEntries, htv]
    rw [h2, List.append_assoc]

end

/-- C10: deepMapKeys never modifies its input: on success the returned
heap is the input heap with freshly allocated cells appended, so every
cell of the input heap is unchanged (reads at the old addresses give the
old contents). -/
theorem c10_input_not_modified (heap : Heap) (fuel : Nat) (input : JsVal)
    (f : Key → String) (options : Option VisitorOptions) (refs : Refs)
    (v : JsVal) (heap1 : Heap) (refs1 : Refs)
    (h : deepMapKeys heap fuel input f options refs = (.ok (v, heap1), refs1)) :
    (∃ ext, heap1 = heap ++ ext) ∧ ∀ r, r < heap.length → heap1[r]? = heap[r]? := by
  have hext : ∃ ext, heap1 = heap ++ ext := by
    unfold deepMapKeys at h
    split at h
    · simp at h
    · split at h
      · simp only [Prod.mk.injEq, Except.ok.injEq] at h
        exact ⟨[], by simp [← h.1.2]⟩
      · split at h
        · simp at h
        · rename_i node refs2 heq
          obtain ⟨ext, hx⟩ :=
            toJsonValue_heap_extends (acceptNode (Visitor.new f options) node) heap
          rcases htv : toJsonValue (acceptNode (Visitor.new f options) node) heap
            with ⟨v0, heap2⟩
          rw [htv] at hx
          rw [htv] at h
          simp only [Prod.mk.injEq, Except.ok.injEq] at h
          exact ⟨ext, by rw [← h.1.2]; exact hx⟩
  obtain ⟨ext, hx⟩ := hext
  refine ⟨⟨ext, hx⟩, fun r hr => ?_⟩
  subst hx
  exact List.getElem?_append_left hr

theorem c10_input_not_modified_witness :
    (∃ ext, ([.objCell [(("a"), JsVal.null)], .objCell [(("a"), JsVal.null)]] : Heap) =
        [.objCell [(("a"), JsVal.null)]] ++ ext)
    ∧ ∀ r, r < ([.objCell [(("a"), JsVal.null)]] : Heap).length →
        ([.objCell [(("a"), JsVal.null)], .objCell [(("a"), JsVal.null)]] : Heap)[r]? =
          ([.objCell [(("a"), JsVal.null)]] : Heap)[r]? := by
  have h : deepMapKeys [.objCell [(("a"), JsVal.null)]] 2 (.ref 0) idKey none [] =
      (.ok (.ref 1, [.objCell [(("a"), JsVal.null)], .objCell [(("a"), JsVal.null)]]), []) := by
    simp [deepMapKeys, isJsonValue, isJsonScalar, isJsonObject, isJsonArray, objKeyCount,
      arrLength, buildNode, buildNodes, nodeJsonPathSegs, classify, detectCircularReference,
      keyToString, toJsonPathSegment_str, isJsSpace, acceptNode, visitChildren,
      visitNodesObject, Visitor.new, idKey, Node.jsonpath, toJsonValue, toJsonValueList,
      toJsonObjEntries, objInsert]
  exact c10_input_not_modified _ 2 (.ref 0) idKey none [] _ _ _ h

/-- C1 (the code contradicts the claim): when construction aborts with the
circular-structure TypeError, the process-wide guard set is NOT cleared
(the clearing at the end of the constructor is skipped by the propagating
exception, there being no try/finally).  On the self-referencing input
the failed call leaves its reference registered; on the three-cell heap
the failed call leaves the innocent empty object (cell 1) registered, and
a subsequent call on the acyclic cell 2 then fails spuriously, although
the same call from a clean guard succeeds. -/
theorem c1_guard_not_cleared_on_aborted_construction :
    deepMapKeys heapSelfRef 10 (.ref 0) idKey none [] =
      (.error (.typeError ("Converting circular structure")), [0])
    ∧ deepMapKeys heapGuardLeak 10 (.ref 0) idKey none [] =
        (.error (.typeError ("Converting circular structure")), [0, 1])
    ∧ deepMapKeys heapGuardLeak 10 (.ref 2) idKey none [0, 1] =
        (.error (.typeError ("Converting circular structure")), [0, 1, 2])
    ∧ deepMapKeys heapGuardLeak 10 (.ref 2) idKey none [] =
        (.ok (.ref 4, heapGuardLeak ++ [.objCell [], .objCell [(("d"), .ref 3)]]), []) := by
  refine ⟨?_, ?_, ?_, ?_⟩ <;>
    simp [deepMapKeys, heapSelfRef, heapGuardLeak, isJsonValue, isJsonScalar, isJsonObject,
      isJsonArray, objKeyCount, arrLength, buildNode, buildNodes, nodeJsonPathSegs, classify,
      detectCircularReference, keyToString, toJsonPathSegment_str, isJsSpace, acceptNode,
      visitChildren, visitNodesObject, Visitor.new, idKey, Node.jsonpath, toJsonValue,
      toJsonValueList, toJsonObjEntries, objInsert]

/-- On the cyclic heap, building the node for the object whose key is
spelled like the root sentinel clears the guard mid-pass; as a result the
subtree below the first entry of cell 0 always completes with an empty
guard (or runs out of fuel). -/
theorem buildNode_cycleDollar_left_child (fuel : Nat) (segs : List String) :
    (∃ n, buildNode heapCycleDollar fuel (.str ("a")) (.ref 1) (some segs) [0] =
        (.ok n, []))
    ∨ (buildNode heapCycleDollar fuel (.str ("a")) (.ref 1) (some segs) [0]).fst =
        .error .outOfFuel := by
  match fuel with
  | 0 => exact .inr (by simp [buildNode])
  | 1 =>
    refine .inr ?_
    simp [buildNode, buildNodes, nodeJsonPathSegs, classify, heapCycleDollar,
      detectCircularReference, toJsonPathSegment_str, isJsSpace]
  | (fuel + 2) =>
    refine .inl ⟨.mk (.str ("a")) (.ref 1) .object (segs ++ [(".a")])
      (some [.mk (.str ("$")) .null .scalar [("$")] none]), ?_⟩
    simp [buildNode, buildNodes, nodeJsonPathSegs, classify, heapCycleDollar,
      detectCircularReference, keyToString, toJsonPathSegment_str, isJsSpace]

/-- On the cyclic heap, constructing a node for cell 0 from an empty
guard state exhausts any amount of fuel: the guard that should stop the
cycle is cleared each time the sentinel-keyed descendant finishes, so the
recursion re-enters cell 0 forever. -/
theorem buildNode_cycleDollar_diverges :
    ∀ (fuel : Nat) (key : Key) (parent : Option (List String)) (segs : List String),
      nodeJsonPathSegs key parent = .ok segs →
      (buildNode heapCycleDollar fuel key (.ref 0) parent []).fst = .error .outOfFuel := by
  intro fuel
  induction fuel with
  | zero => intro key parent segs hsegs; simp [buildNode]
  | succ fuel ih =>
    intro key parent segs hsegs
    have hb : (buildNode heapCycleDollar fuel (.str ("b")) (.ref 0) (some segs) []).fst =
        .error .outOfFuel :=
      ih (.str ("b")) (some segs) (segs ++ [toJsonPathSegment (.str ("b"))])
        (by simp [nodeJsonPathSegs])
    unfold buildNode
    rw [hsegs]
    have hcl : classify heapCycleDollar (.ref 0) =
        .objectShaped 0 [(("a"), .ref 1), (("b"), .ref 0)] := by
      simp [classify, heapCycleDollar]
    rw [hcl]
    simp only [detectCircularReference, List.not_mem_nil, if_neg, List.nil_append]
    rcases buildNode_cycleDollar_left_child fuel segs with ⟨n, hn⟩ | herr
    · rcases hbb : buildNode heapCycleDollar fuel (.str ("b")) (.ref 0) (some segs) []
        with ⟨resb, refsb⟩
      rw [hbb] at hb
      simp only at hb
      subst hb
      simp [buildNodes, List.filter, hn, hbb]
    · rcases hba : buildNode heapCycleDollar fuel (.str ("a")) (.ref 1) (some segs) [0]
        with ⟨resa, refsa⟩
      rw [hba] at herr
      simp only at herr
      subst herr
      simp [buildNodes, List.filter, hba]

/-- C2 (the code contradicts the claim): the in-band root sentinel defeats
the cycle guard.  On the heap in which the same empty-object reference is
reachable twice (once under a key spelled like the sentinel, once under a
sibling), construction succeeds and a full result is returned instead of
failing with CircularReference; and on the cyclic heap reaching a
sentinel-spelled key, construction exhausts every fuel bound, the model
rendering of unbounded recursion. -/
theorem c2_cycle_detection_defeated_by_sentinel_key :
    deepMapKeys heapSharedDollar 10 (.ref 0) idKey none [] =
      (.ok (.ref 4, heapSharedDollar ++ [.objCell [], .objCell [],
        .objCell [(("$"), .ref 2), (("b"), .ref 3)]]), [])
    ∧ (∀ fuel : Nat,
        (deepMapKeys heapCycleDollar fuel (.ref 0) idKey none []).fst =
          .error .outOfFuel) := by
  constructor
  · simp [deepMapKeys, heapSharedDollar, isJsonValue, isJsonScalar, isJsonObject,
      isJsonArray, objKeyCount, arrLength, buildNode, buildNodes, nodeJsonPathSegs, classify,
      detectCircularReference, keyToString, toJsonPathSegment_str, isJsSpace, acceptNode,
      visitChildren, visitNodesObject, Visitor.new, idKey, Node.jsonpath, toJsonValue,
      toJsonValueList, toJsonObjEntries, objInsert]
  · intro fuel
    have h := buildNode_cycleDollar_diverges fuel (.str ("$")) none [("$")]
      (by simp [nodeJsonPathSegs, keyToString])
    rcases hb : buildNode heapCycleDollar fuel (.str ("$")) (.ref 0) none []
      with ⟨res, refs1⟩
    rw [hb] at h
    simp only at h
    subst h
    simp only [heapCycleDollar] at hb
    simp [deepMapKeys, heapCycleDollar, isJsonValue, isJsonScalar, isJsonObject,
      isJsonArray, objKeyCount, arrLength, hb]

end JsonUtils
